import Mathlib

/-!
Shallow embedding of the message-history and tool-registry core of the
`askit-llm-agents` plugin collection (Rust), together with proofs about the
claims of its specification.

The embedding follows `src/message_lib.rs` (Message, ToolCall, MessageHistory),
`src/tool.rs` (tool registry, `call_tool`, `call_tools`,
`list_tool_infos_patterns`, `ListToolsAgent::process`),
`src/message.rs` (`MessagesForPromptAgent::process`) and
`src/ollama.rs` (`OllamaChatAgent::call_tools`).
-/

/-- JSON values (`serde_json::Value`): used for the `parameters` payload of a
tool call, which the core treats as opaque. Numbers are modelled as integers;
numeric precision plays no role in any property considered here. -/
inductive JValue where
  | null : JValue
  | bool (b : Bool) : JValue
  | num (n : Int) : JValue
  | str (s : String) : JValue
  | arr (xs : List JValue) : JValue
  | obj (fields : List (String × JValue)) : JValue

/-- `ToolCallFunction` from `src/message_lib.rs`: name, structured parameters
and an optional provider-supplied correlation id. -/
structure ToolCallFunction where
  name : String
  parameters : JValue
  id : Option String

/-- `ToolCall` from `src/message_lib.rs`. -/
structure ToolCall where
  function : ToolCallFunction

/-- `Message` from `src/message_lib.rs`. The optional attached image (behind
the `image` cargo feature) is omitted: no claim concerns it. -/
structure Message where
  id : Option String
  role : String
  content : String
  thinking : String
  tool_calls : Option (List ToolCall)
  tool_name : Option String

namespace Message

/-- `Message::new` from `src/message_lib.rs`. -/
def new (role content : String) : Message :=
  { id := none, role := role, content := content, thinking := ""
    tool_calls := none, tool_name := none }

/-- `Message::assistant`. -/
def assistant (content : String) : Message :=
  Message.new "assistant" content

/-- `Message::system`. -/
def system (content : String) : Message :=
  Message.new "system" content

/-- `Message::user`. -/
def user (content : String) : Message :=
  Message.new "user" content

/-- `Message::tool`. -/
def tool (tool_name content : String) : Message :=
  { Message.new "tool" content with tool_name := some tool_name }

end Message

/-- `MessageHistory` from `src/message_lib.rs`: stored messages in
conversational order, a size bound (`0` = unbounded), the separately retained
system message, and the `include_system` flag. -/
structure MessageHistory where
  messages : List Message
  max_size : Nat
  system_message : Option Message
  include_system : Bool

namespace MessageHistory

/-- `MessageHistory::messages()`: the retained system message (when
`include_system`) followed by the stored messages. Named `messagesView` here
because `messages` is already the field accessor. -/
def messagesView (h : MessageHistory) : List Message :=
  if h.include_system then
    match h.system_message with
    | some sys_msg => sys_msg :: h.messages
    | none => h.messages
  else
    h.messages

/-- `MessageHistory::messages_for_prompt()`: when `include_system` is true the
stored messages are emitted with `thinking` cleared, after the retained system
message; otherwise the stored messages are returned unchanged (this mirrors
the source exactly, including its `else` branch). -/
def messages_for_prompt (h : MessageHistory) : List Message :=
  if h.include_system then
    (match h.system_message with
     | some sys_msg => [sys_msg]
     | none => []) ++ h.messages.map (fun m => { m with thinking := "" })
  else
    h.messages

/-- `MessageHistory::set_max_size`: store the new bound; when positive and
exceeded, scan the to-be-evicted front segment for a system message (stopping
at the first hit) when `include_system` is set, then truncate to the newest
`size` messages. -/
def set_max_size (h : MessageHistory) (size : Nat) : MessageHistory :=
  let h := { h with max_size := size }
  if 0 < h.max_size ∧ h.max_size < h.messages.length then
    let h :=
      if h.include_system then
        match (h.messages.take (h.messages.length - h.max_size)).find?
            (fun m => m.role == "system") with
        | some m => { h with system_message := some m }
        | none => h
      else h
    { h with messages := h.messages.drop (h.messages.length - h.max_size) }
  else h

/-- `MessageHistory::new`: construct and immediately apply `set_max_size`. -/
def mkNew (messages : List Message) (max_size : Nat) : MessageHistory :=
  set_max_size
    { messages := messages, max_size := 0, system_message := none
      include_system := false } max_size

/-- The eviction-and-append path of `MessageHistory::push` (everything after
the id-coalescing early return). -/
def pushAppend (h : MessageHistory) (m : Message) : MessageHistory :=
  if 0 < h.max_size ∧ h.max_size ≤ h.messages.length then
    match h.messages with
    | [] => { h with messages := [m] }
    | first :: rest =>
      if first.role == "system" then
        { h with messages := rest ++ [m], system_message := some first }
      else
        { h with messages := rest ++ [m] }
  else
    { h with messages := h.messages ++ [m] }

/-- `MessageHistory::push`: coalesce into the last stored message when both
carry the same present id, otherwise evict at capacity and append. -/
def push (h : MessageHistory) (m : Message) : MessageHistory :=
  match h.messages.getLast? with
  | some last =>
    if m.id.isSome && (last.id.isSome && last.id == m.id) then
      { h with
        messages := h.messages.dropLast ++
          [{ last with
              content := m.content
              thinking := m.thinking
              tool_calls := m.tool_calls }] }
    else
      pushAppend h m
  | none => pushAppend h m

/-- `MessageHistory::push_all`. -/
def push_all (h : MessageHistory) (messages : List Message) : MessageHistory :=
  messages.foldl push h

end MessageHistory

section Sanity

example :
    (MessageHistory.mkNew [Message.system "You are a helpful assistant.",
      Message.user "Hello", Message.assistant "Hi there!"] 0).messages.length = 3 := rfl

-- set_max_size(1) keeps the newest message and, with include_system, retains
-- the system message found in the evicted range (mirrors the source tests).
example :
    ({ MessageHistory.mkNew [Message.system "S", Message.user "Hello",
        Message.assistant "Hi there!"] 0 with include_system := true
      }.set_max_size 1).messagesView =
      [Message.system "S", Message.assistant "Hi there!"] := rfl

-- push with a matching id updates the last message in place.
example :
    ((MessageHistory.mkNew [{ Message.user "Hello" with id := some "msg1" }] 0).push
        { Message.user "Hello, updated!" with id := some "msg1" }).messages.map
        (fun m => m.content) = ["Hello, updated!"] := rfl

end Sanity

/-- `AgentError` of the host crate, as used by this repository. The
constructors `invalidValue`, `invalidConfig`, `ioError`, `agentNotFound`,
`invalidPin` and `other` are the variants constructed in the source files;
`notFound` is the distinct error kind that the specification claims exists
for unregistered tools (it is never constructed by the code, which is the
point of the claim about it). -/
inductive AgentErr where
  | invalidValue (msg : String) : AgentErr
  | invalidConfig (msg : String) : AgentErr
  | ioError (msg : String) : AgentErr
  | agentNotFound (msg : String) : AgentErr
  | invalidPin (msg : String) : AgentErr
  | notFound (msg : String) : AgentErr
  | other (msg : String) : AgentErr
deriving Repr, DecidableEq

/-- `AgentValue` of the host crate, restricted to the shapes the claims need:
unit, strings, arrays and objects. Rust objects are hash maps; they are
modelled as ordered field lists, which only refines the model. -/
inductive AgentValue where
  | unit : AgentValue
  | string (s : String) : AgentValue
  | array (xs : List AgentValue) : AgentValue
  | object (fields : List (String × AgentValue)) : AgentValue

/-- A registered tool capability: `Tool::call` minus the async context,
returning a result value or an error. -/
def ToolFn : Type := AgentValue → Except AgentErr AgentValue

/-- The tool registry content: the name-to-entry map of `ToolRegistry.tools`
(`src/tool.rs`), modelled as an association list. -/
def ToolReg : Type := List (String × ToolFn)

/-- `call_tool` from `src/tool.rs`: look the name up in the registry; when
absent fail with `AgentError::Other("Tool \x27<name>\x27 not found")` without
invoking anything; otherwise invoke the capability. -/
def call_tool (reg : ToolReg) (name : String) (args : AgentValue) :
    Except AgentErr AgentValue :=
  match reg.lookup name with
  | none => .error (.other ("Tool \x27" ++ name ++ "\x27 not found"))
  | some t => t args

/-- One iteration of the loop in `call_tools` (`src/tool.rs`): parse the call
parameters via `AgentValue::from_json` (abstracted as `fromJson`), invoke
`call_tool`, and wrap the response as a tool-role message whose content is the
serialized result (`AgentValue::to_json().to_string()`, abstracted as
`toJsonStr`). -/
def call_tool_step (fromJson : JValue → Except String AgentValue)
    (toJsonStr : AgentValue → String) (reg : ToolReg) (call : ToolCall) :
    Except AgentErr Message :=
  match fromJson call.function.parameters with
  | .error e => .error (.invalidValue ("Failed to parse tool call parameters: " ++ e))
  | .ok args =>
    match call_tool reg call.function.name args with
    | .error e => .error e
    | .ok resp => .ok (Message.tool call.function.name (toJsonStr resp))

/-- `call_tools` from `src/tool.rs`: run the calls left to right, collecting
the tool-role result messages; the first failing step makes the whole batch
fail (the Rust loop returns the error via `?`, discarding the local vector of
results accumulated so far). -/
def call_tools (fromJson : JValue → Except String AgentValue)
    (toJsonStr : AgentValue → String) (reg : ToolReg) :
    List ToolCall → Except AgentErr (List Message)
  | [] => .ok []
  | c :: rest =>
    match call_tool_step fromJson toJsonStr reg c with
    | .error e => .error e
    | .ok msg =>
      match call_tools fromJson toJsonStr reg rest with
      | .error e => .error e
      | .ok msgs => .ok (msg :: msgs)

/-- `OllamaChatAgent::call_tools` from `src/ollama.rs`: dispatch the batch via
`tool::call_tools` and push all result messages to the agent history; on
failure the error propagates and the history is left as it was (the agent
field keeps its previous value). -/
def chat_call_tools (fromJson : JValue → Except String AgentValue)
    (toJsonStr : AgentValue → String) (reg : ToolReg) (hist : MessageHistory)
    (calls : List ToolCall) : Except AgentErr MessageHistory :=
  match call_tools fromJson toJsonStr reg calls with
  | .error e => .error e
  | .ok msgs => .ok (hist.push_all msgs)

/-- `ToolInfo` from `src/tool.rs`. -/
structure ToolInfo where
  name : String
  description : String
  parameters : Option JValue

/-- The pattern preprocessing in `list_tool_infos_patterns`: split the pattern
string into lines, trim each, and drop blank lines. -/
def cleanPatterns (patterns : String) : List String :=
  ((patterns.splitOn "\n").map String.trim).filter (fun l => l != "")

/-- `list_tool_infos_patterns` from `src/tool.rs`: keep the registered infos
whose name matches at least one of the cleaned patterns. Regex compilation and
matching (`RegexSet`) are abstracted by the `rmatch` parameter; the registry
contents are the infos of the registered entries. -/
def list_tool_infos_patterns (rmatch : String → String → Bool)
    (patterns : String) (reg : List ToolInfo) : List ToolInfo :=
  reg.filter (fun info => (cleanPatterns patterns).any (fun p => rmatch p info.name))

/-- `list_tool_infos` from `src/tool.rs`: all registered infos. -/
def list_tool_infos (reg : List ToolInfo) : List ToolInfo :=
  reg

/-- The listing performed by `ListToolsAgent::process` (`src/tool.rs`): a
non-empty patterns input filters, an empty one returns everything. -/
def listToolsProcess (rmatch : String → String → Bool) (patterns : String)
    (reg : List ToolInfo) : List ToolInfo :=
  if patterns != "" then list_tool_infos_patterns rmatch patterns reg
  else list_tool_infos reg

/-- The host-crate `Message` as consumed by `MessagesForPromptAgent`
(`src/message.rs`): role, content and an optional thinking trace. The other
fields (id, tool calls, image) do not influence the windowing selection. -/
structure KMessage where
  role : String
  content : String
  thinking : Option String
deriving Repr, DecidableEq

/-- The thinking removal applied to each selected message in
`MessagesForPromptAgent::process`. -/
def stripKThinking (m : KMessage) : KMessage :=
  match m.thinking with
  | some _ => { m with thinking := none }
  | none => m

/-- The budget-limited selection loop of `MessagesForPromptAgent::process`:
walk the messages most-recent first, accumulating content sizes, stopping
before the first message that would exceed the budget. -/
def collectRecent (maxSize : Nat) : Nat → List KMessage → List KMessage
  | _, [] => []
  | total, m :: rest =>
    if maxSize < total + m.content.length then []
    else stripKThinking m :: collectRecent maxSize (total + m.content.length) rest

/-- The trailing-strip loop of `MessagesForPromptAgent::process`: pop from the
tail of the (most-recent-first) selection until the last element has role
"user". -/
def dropTailNonUser (sel : List KMessage) : List KMessage :=
  ((sel.reverse).dropWhile (fun m => !(m.role == "user"))).reverse

/-- `MessagesForPromptAgent::process` from `src/message.rs`, as a function
from the configured `max_size` and the input messages to the emitted output
(`none` when the agent emits nothing, i.e. on empty input). Content size is
the content length; the optional image size contribution (behind the `image`
feature) is omitted along with images. -/
def messagesForPromptProcess (maxSize : Int) (msgs : List KMessage) :
    Option (List KMessage) :=
  if maxSize ≤ 0 then some msgs
  else
    match msgs with
    | [] => none
    | first :: rest =>
      if first.role == "system" then
        some ((dropTailNonUser
          (collectRecent maxSize.toNat first.content.length rest.reverse) ++
          [first]).reverse)
      else
        some (dropTailNonUser
          (collectRecent maxSize.toNat 0 ((first :: rest).reverse))).reverse

/-- A selection is well-formed for a provider when, after an optional leading
system message, it is empty or opens with a user turn. -/
def startsOnUserB : List KMessage → Bool
  | [] => true
  | m :: rest =>
    if m.role == "system" then
      match rest with
      | [] => true
      | m2 :: _ => m2.role == "user"
    else m.role == "user"

/-- `From<Message> for AgentValue` (`src/message_lib.rs`): role and content
always, then id, non-empty thinking, tool calls and tool name when present.
The serde serialization of the tool-call list (`AgentValue::from_serialize`)
is abstracted by `tcSer`. -/
def messageToValue (tcSer : List ToolCall → AgentValue) (m : Message) :
    AgentValue :=
  .object
    ([("role", .string m.role), ("content", .string m.content)]
      ++ (match m.id with
          | some i => [("id", AgentValue.string i)]
          | none => [])
      ++ (if m.thinking = "" then [] else [("thinking", .string m.thinking)])
      ++ (match m.tool_calls with
          | some cs => [("tool_calls", tcSer cs)]
          | none => [])
      ++ (match m.tool_name with
          | some t => [("tool_name", AgentValue.string t)]
          | none => []))

/-- `From<MessageHistory> for AgentValue` (`src/message_lib.rs`): the wire
value is the array of the stored messages only — `system_message`,
`include_system` and `max_size` are not serialized. -/
def historyToValue (tcSer : List ToolCall → AgentValue) (h : MessageHistory) :
    AgentValue :=
  .array (h.messages.map (messageToValue tcSer))

/-! ## Helper lemmas -/

/-- The head of a `dropWhile` result never satisfies the dropped predicate. -/
theorem dropWhile_eq_cons_head_false {α : Type} (p : α → Bool) (l : List α)
    (a : α) (rest : List α) (h : l.dropWhile p = a :: rest) : p a = false := by
  induction l with
  | nil => simp [List.dropWhile] at h
  | cons x xs ih =>
    rw [List.dropWhile_cons] at h
    split at h
    · exact ih h
    · next hpx => cases h; simpa using hpx

/-- `pushAppend` leaves `max_size` unchanged. -/
theorem pushAppend_max_size (h : MessageHistory) (m : Message) :
    (h.pushAppend m).max_size = h.max_size := by
  unfold MessageHistory.pushAppend
  split
  · split
    · rfl
    · split <;> rfl
  · rfl

/-- `push` leaves `max_size` unchanged. -/
theorem push_max_size (h : MessageHistory) (m : Message) :
    (h.push m).max_size = h.max_size := by
  unfold MessageHistory.push
  split
  · split
    · rfl
    · exact pushAppend_max_size h m
  · exact pushAppend_max_size h m

/-- The stored messages after the eviction-and-append path: evict the front
exactly when the bound is positive and already reached. -/
theorem pushAppend_messages (h : MessageHistory) (m : Message) :
    (h.pushAppend m).messages =
      if 0 < h.max_size ∧ h.max_size ≤ h.messages.length then
        h.messages.tail ++ [m]
      else
        h.messages ++ [m] := by
  unfold MessageHistory.pushAppend
  split
  · cases hm : h.messages with
    | nil => rfl
    | cons first rest =>
      split
      · next x heq => simp at heq
      · next x f r heq =>
        cases heq
        split <;> rfl
  · rfl

/-! ## C1 -/

/-- A history holding one user message with a non-empty thinking trace,
with `include_system` false (the default of `MessageHistory::default()`,
which is what `OllamaChatAgent` uses). -/
def histC1 : MessageHistory :=
  { messages := [{ Message.user "Hi" with thinking := "secret" }]
    max_size := 0
    system_message := none
    include_system := false }

/-- C1: `messages_for_prompt()` is claimed to clear every `thinking` field
regardless of `include_system`. The code only clears it in the
`include_system` branch: on `histC1` (flag false) the prompt view equals the
full view and retains the thinking text, contradicting the claim and the
function's own doc comment. -/
theorem c1_messages_for_prompt_keeps_thinking :
    histC1.messages_for_prompt.map (fun m => m.thinking) = ["secret"] ∧
    histC1.messages_for_prompt = histC1.messagesView :=
  ⟨rfl, rfl⟩

/-! ## C4 -/

/-- Whether a tool-call result is an error of the `NotFound` kind. -/
def isNotFoundKind : Except AgentErr AgentValue → Bool
  | .error (.notFound _) => true
  | _ => false

/-- C4 counterexample: calling an unregistered tool fails with the `Other`
kind carrying the message `Tool 'missing_tool' not found`, not with a
`NotFound` kind as claimed. -/
theorem c4_not_found_kind_counterexample :
    call_tool [] "missing_tool" AgentValue.unit =
      .error (.other "Tool \x27missing_tool\x27 not found") ∧
    isNotFoundKind (call_tool [] "missing_tool" AgentValue.unit) = false :=
  ⟨rfl, rfl⟩

/-- C4 (amended): for every tool name with no registered capability,
`call_tool` fails with an `Other`-kind error naming the tool, and invokes no
capability (the result does not depend on any registered entry). -/
theorem c4_call_tool_unregistered (reg : ToolReg) (name : String)
    (args : AgentValue) (h : reg.lookup name = none) :
    call_tool reg name args =
      .error (.other ("Tool \x27" ++ name ++ "\x27 not found")) := by
  unfold call_tool
  rw [h]

/-- Witness for `c4_call_tool_unregistered`. -/
theorem c4_call_tool_unregistered_witness :
    ([] : ToolReg).lookup "missing_tool" = none ∧
    call_tool [] "missing_tool" AgentValue.unit =
      .error (.other ("Tool \x27" ++ "missing_tool" ++ "\x27 not found")) :=
  ⟨rfl, c4_call_tool_unregistered [] "missing_tool" AgentValue.unit rfl⟩

/-! ## C5 -/

/-- A history whose two oldest messages are system messages, used to observe
which of them `set_max_size` retains. -/
def histC5 : MessageHistory :=
  { messages := [Message.system "a", Message.system "b", Message.user "c"]
    max_size := 0
    system_message := none
    include_system := true }

/-- C5 counterexample: shrinking `histC5` to one message evicts the two
system messages `a` and `b`; the claim says the last-occurring (`b`) is
retained, but the code's scan breaks at the first hit and retains `a`. -/
theorem c5_retains_first_system_counterexample :
    (histC5.set_max_size 1).system_message = some (Message.system "a") ∧
    Message.system "a" ≠ Message.system "b" := by
  refine ⟨rfl, fun hcontra => ?_⟩
  have : "a" = "b" := congrArg Message.content hcontra
  exact absurd this (by decide)

/-- C5 (amended): with `include_system` true and `0 < s` smaller than the
current length, `set_max_size s` scans the `length - s` oldest messages that
will be evicted and retains the FIRST-occurring system message among them as
`system_message` (leaving it unchanged when there is none), then truncates
the stored messages down to the newest `s`. -/
theorem c5_set_max_size_scans_then_truncates (h : MessageHistory) (s : Nat)
    (hinc : h.include_system = true) (h0 : 0 < s)
    (hlt : s < h.messages.length) :
    (h.set_max_size s).messages = h.messages.drop (h.messages.length - s) ∧
    (h.set_max_size s).max_size = s ∧
    (h.set_max_size s).system_message =
      (match (h.messages.take (h.messages.length - s)).find?
          (fun m => m.role == "system") with
       | some m => some m
       | none => h.system_message) := by
  unfold MessageHistory.set_max_size
  dsimp only
  rw [if_pos ⟨h0, hlt⟩, if_pos hinc]
  cases hf : (h.messages.take (h.messages.length - s)).find?
      (fun m => m.role == "system") with
  | none => exact ⟨rfl, rfl, rfl⟩
  | some m => exact ⟨rfl, rfl, rfl⟩

/-- Witness for `c5_set_max_size_scans_then_truncates` at `histC5` and
size 1. -/
theorem c5_set_max_size_scans_then_truncates_witness :
    histC5.include_system = true ∧ 0 < 1 ∧ 1 < histC5.messages.length ∧
    ((histC5.set_max_size 1).messages =
        histC5.messages.drop (histC5.messages.length - 1) ∧
      (histC5.set_max_size 1).max_size = 1 ∧
      (histC5.set_max_size 1).system_message =
        (match (histC5.messages.take (histC5.messages.length - 1)).find?
            (fun m => m.role == "system") with
         | some m => some m
         | none => histC5.system_message)) :=
  ⟨rfl, by decide, by decide,
    c5_set_max_size_scans_then_truncates histC5 1 rfl (by decide) (by decide)⟩

/-! ## C8 -/

/-- C8: the listing performed on a patterns input returns exactly the
registered entries whose name matches at least one cleaned (trimmed,
non-blank) pattern line, and all entries when the patterns input is empty. -/
theorem c8_list_tools_matches_patterns (rmatch : String → String → Bool)
    (patterns : String) (reg : List ToolInfo) (info : ToolInfo) :
    info ∈ listToolsProcess rmatch patterns reg ↔
      info ∈ reg ∧
        (patterns = "" ∨ ∃ p ∈ cleanPatterns patterns, rmatch p info.name = true) := by
  unfold listToolsProcess list_tool_infos list_tool_infos_patterns
  by_cases hp : patterns = ""
  · subst hp
    simp
  · have hb : (patterns != "") = true := by simpa using hp
    simp [hb, hp, List.mem_filter, List.any_eq_true]

/-! ## C10 -/

/-- C10: the wire value of a history is the array of the stored messages
only: it is invariant under changing `include_system`, `system_message` and
`max_size`, while `messages()` on the same history places the retained
system message first — so a retained evicted system message is absent from
the emitted history. -/
theorem c10_history_wire_is_stored_messages_only
    (tcSer : List ToolCall → AgentValue) (h : MessageHistory) (b : Bool)
    (sm : Option Message) (n : Nat) (s : Message)
    (hinc : h.include_system = true) (hsm : h.system_message = some s) :
    historyToValue tcSer
        { h with include_system := b, system_message := sm, max_size := n } =
      historyToValue tcSer h ∧
    h.messagesView = s :: h.messages ∧
    historyToValue tcSer h = .array (h.messages.map (messageToValue tcSer)) := by
  refine ⟨rfl, ?_, rfl⟩
  simp [MessageHistory.messagesView, hinc, hsm]

/-- Witness for `c10_history_wire_is_stored_messages_only`. -/
theorem c10_history_wire_is_stored_messages_only_witness :
    histC5.include_system = true ∧
    histC5.system_message = none ∧
    (({ histC5 with system_message := some (Message.system "S") } :
        MessageHistory).include_system = true) ∧
    (({ histC5 with system_message := some (Message.system "S") } :
        MessageHistory).system_message = some (Message.system "S")) ∧
    (historyToValue (fun _ => AgentValue.unit)
        { { histC5 with system_message := some (Message.system "S") } with
          include_system := false, system_message := none, max_size := 7 } =
      historyToValue (fun _ => AgentValue.unit)
        { histC5 with system_message := some (Message.system "S") } ∧
    ({ histC5 with system_message := some (Message.system "S") } :
        MessageHistory).messagesView =
      Message.system "S" ::
        ({ histC5 with system_message := some (Message.system "S") } :
          MessageHistory).messages ∧
    historyToValue (fun _ => AgentValue.unit)
        { histC5 with system_message := some (Message.system "S") } =
      .array
        (({ histC5 with system_message := some (Message.system "S") } :
            MessageHistory).messages.map
          (messageToValue (fun _ => AgentValue.unit)))) :=
  ⟨rfl, rfl, rfl, rfl,
    c10_history_wire_is_stored_messages_only (fun _ => AgentValue.unit)
      { histC5 with system_message := some (Message.system "S") } false none 7
      (Message.system "S") rfl rfl⟩

/-! ## C2 -/

/-- When the coalescing condition fails (or there is no last message),
`push` takes the eviction-and-append path. -/
theorem push_eq_pushAppend (h : MessageHistory) (m : Message)
    (hnc : ∀ last, h.messages.getLast? = some last →
      (m.id.isSome && (last.id.isSome && last.id == m.id)) = false) :
    h.push m = h.pushAppend m := by
  unfold MessageHistory.push
  cases hL : h.messages.getLast? with
  | none => rfl
  | some last => simp [hnc last hL]

/-- The eviction-and-append path never grows the store past a positive
bound. -/
theorem pushAppend_length_le (h : MessageHistory) (m : Message)
    (hpos : 0 < h.max_size) (hlen : h.messages.length ≤ h.max_size) :
    (h.pushAppend m).messages.length ≤ h.max_size := by
  rw [pushAppend_messages]
  split
  · next hc =>
    obtain ⟨hc1, hc2⟩ := hc
    simp only [List.length_append, List.length_tail, List.length_cons,
      List.length_nil]
    omega
  · next hc =>
    have hlt : h.messages.length < h.max_size := by
      by_contra hge
      exact hc ⟨hpos, Nat.le_of_not_lt hge⟩
    simp only [List.length_append, List.length_cons, List.length_nil]
    omega

/-- A single `push` never grows the store past a positive bound. -/
theorem push_length_le (h : MessageHistory) (m : Message)
    (hpos : 0 < h.max_size) (hlen : h.messages.length ≤ h.max_size) :
    (h.push m).messages.length ≤ h.max_size := by
  rcases hL : h.messages.getLast? with _ | last
  · have he : h.push m = h.pushAppend m := by
      unfold MessageHistory.push
      rw [hL]
    rw [he]
    exact pushAppend_length_le h m hpos hlen
  · cases hif : (m.id.isSome && (last.id.isSome && last.id == m.id)) with
    | false =>
      have he : h.push m = h.pushAppend m := by
        unfold MessageHistory.push
        rw [hL]
        simp [hif]
      rw [he]
      exact pushAppend_length_le h m hpos hlen
    | true =>
      have hmsg : (h.push m).messages = h.messages.dropLast ++
          [{ last with
              content := m.content
              thinking := m.thinking
              tool_calls := m.tool_calls }] := by
        unfold MessageHistory.push
        rw [hL]
        simp [hif]
      rw [hmsg]
      have hne : h.messages ≠ [] := fun he => Option.noConfusion (he ▸ hL)
      have hpos' : 0 < h.messages.length := List.length_pos.mpr hne
      simp only [List.length_append, List.length_dropLast, List.length_cons,
        List.length_nil]
      omega

/-- C2: starting from a store within a positive bound, any sequence of
pushes keeps the store within the bound; and whenever a non-coalescing push
happens at capacity, it first evicts the oldest stored message from the
front. -/
theorem c2_push_bounded_and_evicts_front (h : MessageHistory)
    (ms : List Message) (hpos : 0 < h.max_size)
    (hlen : h.messages.length ≤ h.max_size) :
    (h.push_all ms).messages.length ≤ h.max_size ∧
    (∀ m : Message,
      (∀ last, h.messages.getLast? = some last →
        (m.id.isSome && (last.id.isSome && last.id == m.id)) = false) →
      h.max_size ≤ h.messages.length →
      (h.push m).messages = h.messages.tail ++ [m]) := by
  constructor
  · induction ms generalizing h with
    | nil => exact hlen
    | cons m rest ih =>
      have hms : (h.push m).max_size = h.max_size := push_max_size h m
      have h1 : (h.push m).messages.length ≤ (h.push m).max_size := by
        rw [hms]
        exact push_length_le h m hpos hlen
      have h2 : ((h.push m).push_all rest).messages.length ≤ (h.push m).max_size :=
        ih (h.push m) (by rw [hms]; exact hpos) h1
      rw [hms] at h2
      exact h2
  · intro m hnc hcap
    rw [push_eq_pushAppend h m hnc, pushAppend_messages, if_pos ⟨hpos, hcap⟩]

/-- Witness for `c2_push_bounded_and_evicts_front`: a history at capacity 2
receiving two more id-less pushes stays at length 2, and each such push
drops the front. -/
theorem c2_push_bounded_and_evicts_front_witness :
    0 < (MessageHistory.mk [Message.user "a", Message.user "b"] 2 none false).max_size ∧
    (MessageHistory.mk [Message.user "a", Message.user "b"] 2 none false).messages.length ≤
      (MessageHistory.mk [Message.user "a", Message.user "b"] 2 none false).max_size ∧
    (((MessageHistory.mk [Message.user "a", Message.user "b"] 2 none false).push_all
        [Message.user "c", Message.user "d"]).messages.length ≤
      (MessageHistory.mk [Message.user "a", Message.user "b"] 2 none false).max_size ∧
    (∀ m : Message,
      (∀ last,
        (MessageHistory.mk [Message.user "a", Message.user "b"] 2 none
            false).messages.getLast? = some last →
        (m.id.isSome && (last.id.isSome && last.id == m.id)) = false) →
      (MessageHistory.mk [Message.user "a", Message.user "b"] 2 none
          false).max_size ≤
        (MessageHistory.mk [Message.user "a", Message.user "b"] 2 none
            false).messages.length →
      ((MessageHistory.mk [Message.user "a", Message.user "b"] 2 none
          false).push m).messages =
        (MessageHistory.mk [Message.user "a", Message.user "b"] 2 none
            false).messages.tail ++ [m])) :=
  ⟨by decide, by decide,
    c2_push_bounded_and_evicts_front
      (MessageHistory.mk [Message.user "a", Message.user "b"] 2 none false)
      [Message.user "c", Message.user "d"] (by decide) (by decide)⟩

/-! ## C6 -/

/-- The coalescing path of `push`: when the last stored message and the
incoming one carry the same present id, the stored list keeps its initial
segment and only the last message's mutable fields are replaced. -/
theorem push_coalesce_spec (h : MessageHistory) (m last : Message)
    (i : String) (hL : h.messages.getLast? = some last)
    (hlid : last.id = some i) (hid : m.id = some i) :
    (h.push m).messages = h.messages.dropLast ++
      [{ last with
          content := m.content
          thinking := m.thinking
          tool_calls := m.tool_calls }] := by
  unfold MessageHistory.push
  rw [hL]
  simp [hid, hlid]

/-- After pushing a message with id `some i`, the last stored message has id
`some i`. -/
theorem push_last_id (h : MessageHistory) (m : Message) (i : String)
    (hid : m.id = some i) :
    ∃ last, (h.push m).messages.getLast? = some last ∧ last.id = some i := by
  rcases hL : h.messages.getLast? with _ | last
  · have he : h.push m = h.pushAppend m := by
      unfold MessageHistory.push
      rw [hL]
    refine ⟨m, ?_, hid⟩
    rw [he, pushAppend_messages]
    split <;> simp
  · cases hif : (m.id.isSome && (last.id.isSome && last.id == m.id)) with
    | false =>
      have he : h.push m = h.pushAppend m := by
        unfold MessageHistory.push
        rw [hL]
        simp [hif]
      refine ⟨m, ?_, hid⟩
      rw [he, pushAppend_messages]
      split <;> simp
    | true =>
      simp only [Bool.and_eq_true, beq_iff_eq] at hif
      have hlid : last.id = some i := by
        rw [hif.2.2, hid]
      refine ⟨{ last with
          content := m.content
          thinking := m.thinking
          tool_calls := m.tool_calls }, ?_, hlid⟩
      rw [push_coalesce_spec h m last i hL hlid hid]
      simp

/-- C6: pushing onto a history whose last stored message carries the same
non-empty id replaces that message's content, thinking and tool calls in
place; hence two successive pushes with the same non-empty id leave the
initial segment and the stored length unchanged on the second push, with the
last stored message carrying the second push's fields. -/
theorem c6_push_same_id_coalesces (h : MessageHistory) (m1 m2 : Message)
    (i : String) (_hne : i ≠ "") (hid1 : m1.id = some i)
    (hid2 : m2.id = some i) :
    (∀ last0, h.messages.getLast? = some last0 → last0.id = some i →
      (h.push m1).messages = h.messages.dropLast ++
        [{ last0 with
            content := m1.content
            thinking := m1.thinking
            tool_calls := m1.tool_calls }]) ∧
    ((h.push m1).push m2).messages.length = (h.push m1).messages.length ∧
    ((h.push m1).push m2).messages.dropLast = (h.push m1).messages.dropLast ∧
    (∃ last, ((h.push m1).push m2).messages.getLast? = some last ∧
      last.content = m2.content ∧ last.thinking = m2.thinking ∧
      last.tool_calls = m2.tool_calls ∧ last.id = some i) := by
  obtain ⟨lastg, hLg, hlidg⟩ := push_last_id h m1 i hid1
  have hmsg := push_coalesce_spec (h.push m1) m2 lastg i hLg hlidg hid2
  have hne1 : (h.push m1).messages ≠ [] := fun he =>
    Option.noConfusion (he ▸ hLg)
  have hpos1 : 0 < (h.push m1).messages.length := List.length_pos.mpr hne1
  refine ⟨?_, ?_, ?_, ?_⟩
  · intro last0 hL0 hlid0
    exact push_coalesce_spec h m1 last0 i hL0 hlid0 hid1
  · rw [hmsg]
    simp only [List.length_append, List.length_dropLast, List.length_cons,
      List.length_nil]
    omega
  · rw [hmsg]
    simp
  · refine ⟨{ lastg with
        content := m2.content
        thinking := m2.thinking
        tool_calls := m2.tool_calls }, ?_, rfl, rfl, rfl, hlidg⟩
    rw [hmsg]
    simp

/-- Witness for `c6_push_same_id_coalesces`: two streamed chunks sharing id
`"m1"` pushed onto an empty history. -/
theorem c6_push_same_id_coalesces_witness :
    ("m1" : String) ≠ "" ∧
    ({ Message.user "Hello" with id := some "m1" } : Message).id = some "m1" ∧
    ({ Message.user "Hello, updated!" with id := some "m1" } : Message).id =
      some "m1" ∧
    ((∀ last0,
        (MessageHistory.mk [] 0 none false).messages.getLast? = some last0 →
        last0.id = some "m1" →
        ((MessageHistory.mk [] 0 none false).push
            { Message.user "Hello" with id := some "m1" }).messages =
          (MessageHistory.mk [] 0 none false).messages.dropLast ++
            [{ last0 with
                content := ({ Message.user "Hello" with
                  id := some "m1" } : Message).content
                thinking := ({ Message.user "Hello" with
                  id := some "m1" } : Message).thinking
                tool_calls := ({ Message.user "Hello" with
                  id := some "m1" } : Message).tool_calls }]) ∧
    (((MessageHistory.mk [] 0 none false).push
          { Message.user "Hello" with id := some "m1" }).push
        { Message.user "Hello, updated!" with id := some "m1" }).messages.length =
      ((MessageHistory.mk [] 0 none false).push
          { Message.user "Hello" with id := some "m1" }).messages.length ∧
    (((MessageHistory.mk [] 0 none false).push
          { Message.user "Hello" with id := some "m1" }).push
        { Message.user "Hello, updated!" with id := some "m1" }).messages.dropLast =
      ((MessageHistory.mk [] 0 none false).push
          { Message.user "Hello" with id := some "m1" }).messages.dropLast ∧
    (∃ last,
      (((MessageHistory.mk [] 0 none false).push
            { Message.user "Hello" with id := some "m1" }).push
          { Message.user "Hello, updated!" with id := some "m1" }).messages.getLast? =
        some last ∧
      last.content = ({ Message.user "Hello, updated!" with
        id := some "m1" } : Message).content ∧
      last.thinking = ({ Message.user "Hello, updated!" with
        id := some "m1" } : Message).thinking ∧
      last.tool_calls = ({ Message.user "Hello, updated!" with
        id := some "m1" } : Message).tool_calls ∧
      last.id = some "m1")) :=
  ⟨by decide, rfl, rfl,
    c6_push_same_id_coalesces (MessageHistory.mk [] 0 none false)
      { Message.user "Hello" with id := some "m1" }
      { Message.user "Hello, updated!" with id := some "m1" } "m1"
      (by decide) rfl rfl⟩

/-! ## C3 -/

/-- C3 (amended): when every call before position `k` in the batch succeeds
and the `k`-th step fails (unparseable parameters, missing tool, or a tool
error), the whole batch fails with that first failure, so the dispatch step
pushes none of the batch's tool-result messages — not even those of the
earlier successful calls; the history value is left untouched (the agent
keeps its previous history on error). -/
theorem c3_batch_fails_at_first_failure_nothing_pushed
    (fromJson : JValue → Except String AgentValue)
    (toJsonStr : AgentValue → String) (reg : ToolReg)
    (hist : MessageHistory) (good : List ToolCall) (bad : ToolCall)
    (rest : List ToolCall) (e : AgentErr)
    (hgood : ∀ c ∈ good, ∃ msg,
      call_tool_step fromJson toJsonStr reg c = .ok msg)
    (hbad : call_tool_step fromJson toJsonStr reg bad = .error e) :
    call_tools fromJson toJsonStr reg (good ++ bad :: rest) = .error e ∧
    chat_call_tools fromJson toJsonStr reg hist (good ++ bad :: rest) =
      .error e := by
  have hct : call_tools fromJson toJsonStr reg (good ++ bad :: rest) =
      .error e := by
    induction good with
    | nil =>
      simp only [List.nil_append]
      unfold call_tools
      rw [hbad]
    | cons c good' ih =>
      obtain ⟨msg, hmsg⟩ := hgood c (List.mem_cons_self c good')
      have ih' := ih (fun c2 hc2 => hgood c2 (List.mem_cons_of_mem c hc2))
      simp only [List.cons_append]
      unfold call_tools
      rw [hmsg, ih']
  refine ⟨hct, ?_⟩
  unfold chat_call_tools
  rw [hct]

/-- The `from_json` conversion for the C3 scenario: every parameter payload
parses. -/
def fromJsonOkC3 : JValue → Except String AgentValue :=
  fun _ => .ok AgentValue.unit

/-- The result serialization for the C3 scenario. -/
def toJsonStrC3 : AgentValue → String :=
  fun _ => "null"

/-- A registry holding one working tool, `get_time`. -/
def regC3 : ToolReg :=
  [("get_time", fun _ => .ok (AgentValue.string "2025-01-02 03:04:05"))]

/-- A call to the registered tool. -/
def callGoodC3 : ToolCall := ⟨⟨"get_time", JValue.obj [], none⟩⟩

/-- A call to an unregistered tool. -/
def callBadC3 : ToolCall := ⟨⟨"missing_tool", JValue.obj [], none⟩⟩

/-- A history as it stands when dispatch begins (the user message is already
pushed). -/
def histC3 : MessageHistory :=
  { messages := [Message.user "hi"]
    max_size := 0
    system_message := none
    include_system := false }

/-- C3 counterexample: a two-call batch whose first call succeeds and whose
second call hits an unregistered tool. The claim says the first call's
tool-role result message remains pushed in the history; in fact the whole
batch errors before anything is pushed, and the history the agent keeps
(`histC3`, unchanged) contains no tool-role message at all. -/
theorem c3_earlier_results_not_pushed_counterexample :
    chat_call_tools fromJsonOkC3 toJsonStrC3 regC3 histC3
        [callGoodC3, callBadC3] =
      .error (.other "Tool \x27missing_tool\x27 not found") ∧
    call_tool_step fromJsonOkC3 toJsonStrC3 regC3 callGoodC3 =
      .ok (Message.tool "get_time" "null") ∧
    histC3.messages.filter (fun m => m.role == "tool") = [] :=
  ⟨rfl, rfl, rfl⟩

/-- Witness for `c3_batch_fails_at_first_failure_nothing_pushed` on the
concrete two-call batch. -/
theorem c3_batch_fails_at_first_failure_nothing_pushed_witness :
    (∀ c ∈ [callGoodC3], ∃ msg,
      call_tool_step fromJsonOkC3 toJsonStrC3 regC3 c = .ok msg) ∧
    call_tool_step fromJsonOkC3 toJsonStrC3 regC3 callBadC3 =
      .error (.other "Tool \x27missing_tool\x27 not found") ∧
    (call_tools fromJsonOkC3 toJsonStrC3 regC3
        ([callGoodC3] ++ callBadC3 :: []) =
      .error (.other "Tool \x27missing_tool\x27 not found") ∧
    chat_call_tools fromJsonOkC3 toJsonStrC3 regC3 histC3
        ([callGoodC3] ++ callBadC3 :: []) =
      .error (.other "Tool \x27missing_tool\x27 not found")) :=
  ⟨fun c hc => by
      rw [List.mem_singleton] at hc
      subst hc
      exact ⟨Message.tool "get_time" "null", rfl⟩,
    rfl,
    c3_batch_fails_at_first_failure_nothing_pushed fromJsonOkC3 toJsonStrC3
      regC3 histC3 [callGoodC3] callBadC3 []
      (.other "Tool \x27missing_tool\x27 not found")
      (fun c hc => by
        rw [List.mem_singleton] at hc
        subst hc
        exact ⟨Message.tool "get_time" "null", rfl⟩)
      rfl⟩

/-! ## C7 -/

/-- C7: with a positive size budget, whatever `MessagesForPromptAgent`
emits never begins with a non-user message after the optional leading system
message: either it is empty, or it opens with a user message, or it opens
with the extracted system message followed by nothing or a user message. -/
theorem c7_windowing_starts_on_user (maxSize : Int)
    (msgs out : List KMessage) (hpos : 0 < maxSize)
    (hout : messagesForPromptProcess maxSize msgs = some out) :
    startsOnUserB out = true := by
  unfold messagesForPromptProcess at hout
  rw [if_neg (by omega : ¬maxSize ≤ 0)] at hout
  cases msgs with
  | nil => exact Option.noConfusion hout
  | cons first rest =>
    dsimp only at hout
    by_cases hsys : (first.role == "system") = true
    · rw [if_pos hsys] at hout
      injection hout with h1
      subst h1
      unfold dropTailNonUser
      rw [List.reverse_append, List.reverse_reverse]
      cases hd : (collectRecent maxSize.toNat first.content.length
          rest.reverse).reverse.dropWhile (fun m => !(m.role == "user")) with
      | nil => simp [startsOnUserB, hsys]
      | cons m2 tl =>
        have hq := dropWhile_eq_cons_head_false _ _ _ _ hd
        have hrole : m2.role = "user" := by simpa using hq
        simp [startsOnUserB, hsys, hrole]
    · rw [if_neg hsys] at hout
      injection hout with h1
      subst h1
      unfold dropTailNonUser
      rw [List.reverse_reverse]
      cases hd : (collectRecent maxSize.toNat 0
          ((first :: rest).reverse)).reverse.dropWhile
          (fun m => !(m.role == "user")) with
      | nil => rfl
      | cons m2 tl =>
        have hq := dropWhile_eq_cons_head_false _ _ _ _ hd
        have hrole : m2.role = "user" := by simpa using hq
        simp [startsOnUserB, hrole]

/-- Witness for `c7_windowing_starts_on_user`: a history ending in an
assistant message whose budget admits only that assistant message — the
emitted selection is the system message alone (the P5 scenario). -/
theorem c7_windowing_starts_on_user_witness :
    (0 : Int) < 5 ∧
    messagesForPromptProcess 5
        [⟨"system", "S", none⟩, ⟨"assistant", "aa", none⟩] =
      some [⟨"system", "S", none⟩] ∧
    startsOnUserB [(⟨"system", "S", none⟩ : KMessage)] = true :=
  ⟨by decide, by decide,
    c7_windowing_starts_on_user 5
      [⟨"system", "S", none⟩, ⟨"assistant", "aa", none⟩]
      [⟨"system", "S", none⟩] (by decide) (by decide)⟩
